import Mathlib

/-!
# Verification of the slot-grouping core of `src/app.py`

This file gives a shallow embedding of the pure computational core of the
repository's single source file `app.py`:

* `normalize_us_phone` (app.py lines 37-41),
* `classify_slot` (app.py lines 43-45),
* the slot-grouping loop of the `/slots` handler `get_slots`
  (app.py lines 114-143), embedded as `get_slots_core`.

The Python code parses timestamps with `datetime.fromisoformat`.  That library
function is embedded here as `pyFromIsoformat`, modelled on the CPython
3.7-3.10 `_datetime` C accelerator (the implementation CPython actually uses):
the grammar `YYYY-MM-DD[*time[±HH:MM[:SS[.ffffff]]]]` where `*` matches any
single character and `time` is `HH[:MM[:SS]]` optionally followed directly —
after the hour, the minute or the second — by a fractional part of exactly 3
or 6 digits (`HH.fff[fff]`, `HH:MM.fff[fff]`, `HH:MM:SS.fff[fff]`).  Component
values are range-checked exactly as the `datetime` constructor does (year
1-9999, month 1-12, day up to the month length in the proleptic Gregorian
calendar, hour 0-23, minute and second 0-59, microsecond 0-999999, UTC offset
strictly below 24 hours in magnitude).  The accelerator additionally tolerates
a few undocumented quirks that are deliberately not modelled (one stray
character immediately before the offset sign, `':'` accepted in place of the
fraction dot), and CPython 3.11+ widens the grammar further (a `'Z'` suffix,
basic formats without separators, arbitrary-length fractions).  The model is
therefore a sound subset of every supported interpreter's acceptance —
fuzz-checked against CPython 3.11.6: every string the model accepts, CPython
accepts with identical components — and the acceptance theorems below only
assert acceptances, never an exact characterization of a particular version's
acceptance set.  `dt.strftime("%A")` is embedded as
`weekdayName`, the full English weekday name obtained from the
proleptic-Gregorian ordinal exactly as `datetime.date.weekday` computes it
(Monday = 0).  Python `re.sub(r"[^\d]", "", s)` is embedded as keeping the
Unicode decimal digits of the string (category Nd, the exact table of
CPython 3.11's `re` module).
-/

/-- The components of a parsed Python `datetime` value: naive local fields plus
an optional fixed UTC offset in microseconds. -/
structure PyDateTime where
  year : Nat
  month : Nat
  day : Nat
  hour : Nat
  minute : Nat
  second : Nat
  microsecond : Nat
  utcOffsetMicros : Option Int
deriving DecidableEq, Repr

/-- Is `c` an ASCII decimal digit (what CPython's C parser accepts)? -/
def isAsciiDigit (c : Char) : Bool :=
  '0' ≤ c && c ≤ '9'

/-- Numeric value of an ASCII digit character. -/
def digitVal (c : Char) : Nat :=
  c.toNat - '0'.toNat

/-- Two-digit number. -/
def num2 (a b : Char) : Nat :=
  10 * digitVal a + digitVal b

/-- Four-digit number. -/
def num4 (a b c d : Char) : Nat :=
  1000 * digitVal a + 100 * digitVal b + 10 * digitVal c + digitVal d

/-- CPython `parse_isoformat_date`: exactly `YYYY-MM-DD`, ten characters,
ASCII digits and dashes.  Returns the raw (not yet range-checked) components. -/
def parse_isoformat_date : List Char → Option (Nat × Nat × Nat)
  | [y1, y2, y3, y4, c1, m1, m2, c2, d1, d2] =>
    if isAsciiDigit y1 && isAsciiDigit y2 && isAsciiDigit y3 && isAsciiDigit y4 &&
       c1 == '-' && isAsciiDigit m1 && isAsciiDigit m2 && c2 == '-' &&
       isAsciiDigit d1 && isAsciiDigit d2 then
      some (num4 y1 y2 y3 y4, num2 m1 m2, num2 d1 d2)
    else
      none
  | _ => none

/-- Fractional-second part: exactly 3 or 6 ASCII digits, scaled to microseconds
(CPython multiplies a 3-digit fraction by 1000). -/
def parseFraction : List Char → Option Nat
  | [a, b, c] =>
    if isAsciiDigit a && isAsciiDigit b && isAsciiDigit c then
      some ((100 * digitVal a + 10 * digitVal b + digitVal c) * 1000)
    else
      none
  | [a, b, c, d, e, f] =>
    if isAsciiDigit a && isAsciiDigit b && isAsciiDigit c &&
       isAsciiDigit d && isAsciiDigit e && isAsciiDigit f then
      some (100000 * digitVal a + 10000 * digitVal b + 1000 * digitVal c +
            100 * digitVal d + 10 * digitVal e + digitVal f)
    else
      none
  | _ => none

/-- CPython `parse_hh_mm_ss_ff` (the C accelerator breaks to the fraction
parse on a `'.'` after any component): the forms `HH`, `HH:MM`, `HH:MM:SS`,
each optionally followed directly by a fractional part of exactly 3 or 6
digits — `HH.fff[fff]`, `HH:MM.fff[fff]`, `HH:MM:SS.fff[fff]` — filling the
whole character region.  Returns raw `(hour, minute, second, microsecond)`. -/
def parse_hh_mm_ss_ff : List Char → Option (Nat × Nat × Nat × Nat)
  | [h1, h2] =>
    if isAsciiDigit h1 && isAsciiDigit h2 then
      some (num2 h1 h2, 0, 0, 0)
    else
      none
  | h1 :: h2 :: '.' :: frac =>
    if isAsciiDigit h1 && isAsciiDigit h2 then
      match parseFraction frac with
      | some us => some (num2 h1 h2, 0, 0, us)
      | none => none
    else
      none
  | [h1, h2, ':', m1, m2] =>
    if isAsciiDigit h1 && isAsciiDigit h2 &&
       isAsciiDigit m1 && isAsciiDigit m2 then
      some (num2 h1 h2, num2 m1 m2, 0, 0)
    else
      none
  | h1 :: h2 :: ':' :: m1 :: m2 :: '.' :: frac =>
    if isAsciiDigit h1 && isAsciiDigit h2 &&
       isAsciiDigit m1 && isAsciiDigit m2 then
      match parseFraction frac with
      | some us => some (num2 h1 h2, num2 m1 m2, 0, us)
      | none => none
    else
      none
  | [h1, h2, ':', m1, m2, ':', s1, s2] =>
    if isAsciiDigit h1 && isAsciiDigit h2 && isAsciiDigit m1 &&
       isAsciiDigit m2 && isAsciiDigit s1 && isAsciiDigit s2 then
      some (num2 h1 h2, num2 m1 m2, num2 s1 s2, 0)
    else
      none
  | h1 :: h2 :: ':' :: m1 :: m2 :: ':' :: s1 :: s2 :: '.' :: frac =>
    if isAsciiDigit h1 && isAsciiDigit h2 && isAsciiDigit m1 &&
       isAsciiDigit m2 && isAsciiDigit s1 && isAsciiDigit s2 then
      match parseFraction frac with
      | some us => some (num2 h1 h2, num2 m1 m2, num2 s1 s2, us)
      | none => none
    else
      none
  | _ => none

/-- Split a character region at the first `'+'` or `'-'` sign, as CPython's
time-zone scan does: returns the part before the sign and the part from the
sign on (empty when there is no sign). -/
def splitAtSign : List Char → List Char × List Char
  | [] => ([], [])
  | c :: rest =>
    if c == '+' || c == '-' then
      ([], c :: rest)
    else
      let p := splitAtSign rest
      (c :: p.1, p.2)

/-- CPython `parse_isoformat_time`: a `parse_hh_mm_ss_ff` time, optionally
followed by a UTC offset `±HH:MM[:SS[.ffffff]]` (the part after the sign must
be 5, 8 or 15 characters long).  Returns raw time components and the signed
offset in microseconds. -/
def parse_isoformat_time (cs : List Char) : Option (Nat × Nat × Nat × Nat × Option Int) :=
  let p := splitAtSign cs
  match parse_hh_mm_ss_ff p.1 with
  | none => none
  | some (h, mi, s, us) =>
    match p.2 with
    | [] => some (h, mi, s, us, none)
    | sign :: tzstr =>
      if tzstr.length = 5 || tzstr.length = 8 || tzstr.length = 15 then
        match parse_hh_mm_ss_ff tzstr with
        | none => none
        | some (th, tm, ts, tus) =>
          let total : Int :=
            ((th * 3600 + tm * 60 + ts) * 1000000 + tus : Nat)
          some (h, mi, s, us, some (if sign == '-' then -total else total))
      else
        none

/-- Is `y` a leap year in the proleptic Gregorian calendar? -/
def isLeapYear (y : Nat) : Bool :=
  y % 4 == 0 && (y % 100 != 0 || y % 400 == 0)

/-- Number of days in month `m` of year `y`. -/
def daysInMonth (y m : Nat) : Nat :=
  if m = 2 then
    if isLeapYear y then 29 else 28
  else if m = 4 || m = 6 || m = 9 || m = 11 then
    30
  else
    31

/-- Range check the `datetime` constructor performs on the date components. -/
def dateRangeOK (y mo d : Nat) : Bool :=
  decide (1 ≤ y ∧ y ≤ 9999 ∧ 1 ≤ mo ∧ mo ≤ 12 ∧ 1 ≤ d ∧ d ≤ daysInMonth y mo)

/-- Range check the `datetime` constructor performs on the time components. -/
def timeRangeOK (h mi s us : Nat) : Bool :=
  decide (h ≤ 23 ∧ mi ≤ 59 ∧ s ≤ 59 ∧ us ≤ 999999)

/-- Range check `datetime.timezone` performs on a fixed offset: strictly
between -24 and +24 hours (in microseconds). -/
def offsetRangeOK : Option Int → Bool
  | none => true
  | some v => decide (-86400000000 < v ∧ v < 86400000000)

/-- The `datetime(...)` constructor: accepts the parsed components exactly when
all range checks pass. -/
def mkPyDateTime (y mo d h mi s us : Nat) (off : Option Int) : Option PyDateTime :=
  if dateRangeOK y mo d && timeRangeOK h mi s us && offsetRangeOK off then
    some ⟨y, mo, d, h, mi, s, us, off⟩
  else
    none

/-- `datetime.fromisoformat` as used by `get_slots` in app.py line 119: the
first ten characters must form a valid date; a ten-character string parses as
midnight of that date; otherwise character 10 is an arbitrary single separator
and the characters from position 11 on must form a valid time with optional
UTC offset. -/
def pyFromIsoformat (str : String) : Option PyDateTime :=
  match parse_isoformat_date (str.data.take 10) with
  | none => none
  | some (y, mo, d) =>
    if str.data.length = 10 then
      mkPyDateTime y mo d 0 0 0 0 none
    else
      match parse_isoformat_time (str.data.drop 11) with
      | none => none
      | some (h, mi, s, us, off) => mkPyDateTime y mo d h mi s us off

/-- Days in all years strictly before year `y` in the proleptic Gregorian
calendar (`datetime._days_before_year`). -/
def daysBeforeYear (y : Nat) : Nat :=
  365 * (y - 1) + (y - 1) / 4 + (y - 1) / 400 - (y - 1) / 100

/-- Days in year `y` strictly before month `m` (`datetime._days_before_month`). -/
def daysBeforeMonth (y m : Nat) : Nat :=
  let base :=
    match m with
    | 1 => 0 | 2 => 31 | 3 => 59 | 4 => 90 | 5 => 120 | 6 => 151
    | 7 => 181 | 8 => 212 | 9 => 243 | 10 => 273 | 11 => 304 | _ => 334
  if 2 < m && isLeapYear y then base + 1 else base

/-- `datetime.date.toordinal`: day count with 0001-01-01 as day 1. -/
def toOrdinal (y m d : Nat) : Nat :=
  daysBeforeYear y + daysBeforeMonth y m + d

/-- `dt.strftime("%A")` (C locale): the full English weekday name, via
`weekday() = (toordinal() + 6) % 7` with Monday = 0. -/
def weekdayName (dt : PyDateTime) : String :=
  match (toOrdinal dt.year dt.month dt.day + 6) % 7 with
  | 0 => "Monday"
  | 1 => "Tuesday"
  | 2 => "Wednesday"
  | 3 => "Thursday"
  | 4 => "Friday"
  | 5 => "Saturday"
  | _ => "Sunday"

/-- `classify_slot` (app.py lines 43-45): `"morning"` when
`8 <= dt.hour < 12`, else `"afternoon"`. -/
def classify_slot (dt : PyDateTime) : String :=
  if 8 ≤ dt.hour ∧ dt.hour < 12 then "morning" else "afternoon"

/-- The two period buckets of one weekday entry of `grouped`. -/
structure Buckets where
  morning : List String
  afternoon : List String
deriving DecidableEq, Repr

/-- `{"morning": [], "afternoon": []}` (app.py line 124). -/
def emptyBuckets : Buckets :=
  ⟨[], []⟩

/-- `grouped[weekday][period].append(iso_str)` (app.py line 126). -/
def appendToBucket (b : Buckets) (period s : String) : Buckets :=
  if period = "morning" then
    { b with morning := b.morning ++ [s] }
  else
    { b with afternoon := b.afternoon ++ [s] }

/-- The insertion-ordered dictionary `grouped` is embedded as an association
list; `insertSlot` is app.py lines 123-126: create the weekday entry with empty
buckets if absent, then append the raw string to its `period` bucket. -/
def insertSlot (grouped : List (String × Buckets)) (weekday period s : String) :
    List (String × Buckets) :=
  (if grouped.any (fun e => e.1 == weekday) then grouped
   else grouped ++ [(weekday, emptyBuckets)]).map
    (fun e => if e.1 == weekday then (e.1, appendToBucket e.2 period s) else e)

/-- One iteration of the `for iso_str in all_slots` loop (app.py lines
117-129): on parse failure the state is unchanged (`except: continue`);
on success the slot is grouped and appended to `fallback`. -/
def slotStep (st : List (String × Buckets) × List String) (iso_str : String) :
    List (String × Buckets) × List String :=
  match pyFromIsoformat iso_str with
  | none => st
  | some dt =>
    let weekday := weekdayName dt
    let period := classify_slot dt
    (insertSlot st.1 weekday period iso_str, st.2 ++ [iso_str])

/-- The `result` object built by `get_slots` (app.py lines 135-140). -/
structure SlotsResult where
  grouped : List (String × Buckets)
  days : List String
  periods : List String
  fallback : List String
deriving DecidableEq, Repr

/-- The slot-grouping core of `get_slots` (app.py lines 114-143): runs the loop
over `all_slots` starting from empty `grouped`/`fallback` and packages the
result, with `days = list(grouped.keys())` and the constant `periods`. -/
def get_slots_core (all_slots : List String) : SlotsResult :=
  let st := all_slots.foldl slotStep ([], [])
  { grouped := st.1
    days := st.1.map Prod.fst
    periods := ["morning", "afternoon"]
    fallback := st.2 }

/-- The code-point ranges matched by Python's `re` pattern `\d`: all Unicode
decimal digits (category Nd), enumerated from CPython 3.11's own `re` module
table. -/
def ndDigitRanges : List (Nat × Nat) :=
  [(0x30, 0x39), (0x660, 0x669), (0x6F0, 0x6F9), (0x7C0, 0x7C9),
   (0x966, 0x96F), (0x9E6, 0x9EF), (0xA66, 0xA6F), (0xAE6, 0xAEF),
   (0xB66, 0xB6F), (0xBE6, 0xBEF), (0xC66, 0xC6F), (0xCE6, 0xCEF),
   (0xD66, 0xD6F), (0xDE6, 0xDEF), (0xE50, 0xE59), (0xED0, 0xED9),
   (0xF20, 0xF29), (0x1040, 0x1049), (0x1090, 0x1099), (0x17E0, 0x17E9),
   (0x1810, 0x1819), (0x1946, 0x194F), (0x19D0, 0x19D9), (0x1A80, 0x1A89),
   (0x1A90, 0x1A99), (0x1B50, 0x1B59), (0x1BB0, 0x1BB9), (0x1C40, 0x1C49),
   (0x1C50, 0x1C59), (0xA620, 0xA629), (0xA8D0, 0xA8D9), (0xA900, 0xA909),
   (0xA9D0, 0xA9D9), (0xA9F0, 0xA9F9), (0xAA50, 0xAA59), (0xABF0, 0xABF9),
   (0xFF10, 0xFF19), (0x104A0, 0x104A9), (0x10D30, 0x10D39),
   (0x11066, 0x1106F), (0x110F0, 0x110F9), (0x11136, 0x1113F),
   (0x111D0, 0x111D9), (0x112F0, 0x112F9), (0x11450, 0x11459),
   (0x114D0, 0x114D9), (0x11650, 0x11659), (0x116C0, 0x116C9),
   (0x11730, 0x11739), (0x118E0, 0x118E9), (0x11950, 0x11959),
   (0x11C50, 0x11C59), (0x11D50, 0x11D59), (0x11DA0, 0x11DA9),
   (0x16A60, 0x16A69), (0x16AC0, 0x16AC9), (0x16B50, 0x16B59),
   (0x1D7CE, 0x1D7FF), (0x1E140, 0x1E149), (0x1E2F0, 0x1E2F9),
   (0x1E950, 0x1E959), (0x1FBF0, 0x1FBF9)]

/-- A character Python's `\d` matches: any Unicode decimal digit, not only
ASCII (e.g. the fullwidth digit `５` counts). -/
def isPyDigit (c : Char) : Bool :=
  ndDigitRanges.any (fun r => r.1 ≤ c.toNat && c.toNat ≤ r.2)

/-- `re.sub(r"[^\d]", "", phone)` (app.py line 38): keep only the decimal
digits of the input, non-ASCII Unicode decimal digits included. -/
def pyDigits (s : String) : String :=
  ⟨s.data.filter isPyDigit⟩

/-- `digits.startswith("1")` (app.py line 39): a single-character prefix test,
embedded as a check on the first character. -/
def startsWith1 (s : String) : Bool :=
  s.data.head? == some '1'

/-- `normalize_us_phone` (app.py lines 37-41): strip non-digits, prepend `"1"`
unless the digit string already starts with `"1"`, and prefix `"+"`. -/
def normalize_us_phone (phone : String) : String :=
  let digits := pyDigits phone
  let digits := if startsWith1 digits then digits else "1" ++ digits
  "+" ++ digits

/-! ## Spec-side shapes and characterizations -/

/-- A character region is a valid (range-checked) `YYYY-MM-DD` date. -/
def dateValid (cs : List Char) : Bool :=
  match parse_isoformat_date cs with
  | some (y, mo, d) => dateRangeOK y mo d
  | none => false

/-- A character region is a valid (range-checked) time with optional offset. -/
def timeValid (cs : List Char) : Bool :=
  match parse_isoformat_time cs with
  | some (h, mi, s, us, off) => timeRangeOK h mi s us && offsetRangeOK off
  | none => false

/-- Modelled from the spec: the strict ISO-8601 shape the spec describes —
a date, the mandatory `'T'` separator, a time, and an optional offset. -/
def strictISO8601 (s : String) : Bool :=
  dateValid (s.data.take 10) && (s.data.get? 10 == some 'T') && timeValid (s.data.drop 11)

/-- The shape accepted by the modelled `fromisoformat` (the CPython 3.7-3.10
accelerator grammar; 3.11+ interpreters accept a proper superset): a valid
date that is either the whole string (bare date) or is followed by one
arbitrary separator character and a valid time — fraction-after-hour/minute
forms included — with optional offset. -/
def relaxedISO (s : String) : Bool :=
  dateValid (s.data.take 10) && (s.data.length == 10 || timeValid (s.data.drop 11))

/-- Modelled from the spec: first-insertion order — each value listed at the
position of its first occurrence. -/
def firstSeen (l : List String) : List String :=
  l.foldl (fun acc d => if d ∈ acc then acc else acc ++ [d]) []

/-- The weekday names of the successfully parsed entries, in input order. -/
def validWds (l : List String) : List String :=
  l.filterMap (fun s => (pyFromIsoformat s).map weekdayName)

/-- Does slot string `s` parse and fall in weekday `d`, period `p`? -/
def slotMatches (d p s : String) : Bool :=
  match pyFromIsoformat s with
  | some dt => weekdayName dt == d && classify_slot dt == p
  | none => false

/-- The sub-sequence of the input landing in weekday `d`, period `p`. -/
def bucketOf (l : List String) (d p : String) : List String :=
  l.filter (slotMatches d p)

/-- The closed form of the `grouped` dictionary: one entry per first-seen
weekday, whose buckets are the matching sub-sequences of the input. -/
def expectedGrouped (l : List String) : List (String × Buckets) :=
  (firstSeen (validWds l)).map
    (fun d => (d, ⟨bucketOf l d "morning", bucketOf l d "afternoon"⟩))

/-- Total number of slot strings stored across all buckets of `grouped`. -/
def sumBuckets (g : List (String × Buckets)) : Nat :=
  (g.map (fun e => e.2.morning.length + e.2.afternoon.length)).sum

/-- `s` occurs in some bucket of the grouped structure. -/
def memGrouped (g : List (String × Buckets)) (s : String) : Prop :=
  ∃ e ∈ g, s ∈ e.2.morning ∨ s ∈ e.2.afternoon

/-! ## Basic lemmas -/

lemma classify_slot_cases (dt : PyDateTime) :
    classify_slot dt = "morning" ∨ classify_slot dt = "afternoon" := by
  unfold classify_slot
  split
  · exact Or.inl rfl
  · exact Or.inr rfl

lemma slotStep_none {x : String} (hx : pyFromIsoformat x = none)
    (st : List (String × Buckets) × List String) : slotStep st x = st := by
  unfold slotStep
  rw [hx]

lemma slotStep_some {x : String} {dt : PyDateTime} (hx : pyFromIsoformat x = some dt)
    (st : List (String × Buckets) × List String) :
    slotStep st x =
      (insertSlot st.1 (weekdayName dt) (classify_slot dt) x, st.2 ++ [x]) := by
  unfold slotStep
  rw [hx]

/-! ## Claim theorems: the direct ones -/

/-- C1: for every successfully parsed timestamp, the classification is
`"morning"` exactly when the local hour component is in `[8, 12)`, and
`"afternoon"` for every other hour. -/
theorem classify_slot_morning_iff (s : String) (dt : PyDateTime)
    (_h : pyFromIsoformat s = some dt) :
    (classify_slot dt = "morning" ↔ 8 ≤ dt.hour ∧ dt.hour < 12) ∧
    (classify_slot dt = "afternoon" ↔ ¬(8 ≤ dt.hour ∧ dt.hour < 12)) := by
  unfold classify_slot
  by_cases hc : 8 ≤ dt.hour ∧ dt.hour < 12
  · rw [if_pos hc]
    exact ⟨⟨fun _ => hc, fun _ => rfl⟩,
           ⟨fun he => absurd he (by decide), fun hn => absurd hc hn⟩⟩
  · rw [if_neg hc]
    exact ⟨⟨fun he => absurd he (by decide), fun hp => absurd hp hc⟩,
           ⟨fun _ => hc, fun _ => rfl⟩⟩

/-- Witness for `classify_slot_morning_iff`: the slot `2024-06-10T08:00:00`
parses, and local hour 8 classifies as `"morning"`. -/
theorem classify_slot_morning_iff_witness :
    (classify_slot ⟨2024, 6, 10, 8, 0, 0, 0, none⟩ = "morning" ↔
       8 ≤ (⟨2024, 6, 10, 8, 0, 0, 0, none⟩ : PyDateTime).hour ∧
         (⟨2024, 6, 10, 8, 0, 0, 0, none⟩ : PyDateTime).hour < 12) ∧
    (classify_slot ⟨2024, 6, 10, 8, 0, 0, 0, none⟩ = "afternoon" ↔
       ¬(8 ≤ (⟨2024, 6, 10, 8, 0, 0, 0, none⟩ : PyDateTime).hour ∧
         (⟨2024, 6, 10, 8, 0, 0, 0, none⟩ : PyDateTime).hour < 12)) :=
  classify_slot_morning_iff "2024-06-10T08:00:00" ⟨2024, 6, 10, 8, 0, 0, 0, none⟩ (by decide)

/-- C3: the grouping loop never fails — an entry whose parse fails is dropped
from both `grouped` and `fallback`, and the remaining entries are processed
exactly as if the failing entry were absent. -/
theorem get_slots_core_skips_failures (l1 l2 : List String) (x : String)
    (hx : pyFromIsoformat x = none) :
    get_slots_core (l1 ++ x :: l2) = get_slots_core (l1 ++ l2) := by
  unfold get_slots_core
  rw [List.foldl_append, List.foldl_append, List.foldl_cons, slotStep_none hx]

/-- Witness for `get_slots_core_skips_failures`: `"not-a-date"` fails to parse
and is dropped without disturbing the following valid slot. -/
theorem get_slots_core_skips_failures_witness :
    pyFromIsoformat "not-a-date" = none ∧
    get_slots_core ["not-a-date", "2024-06-10T09:00:00"] =
      get_slots_core ["2024-06-10T09:00:00"] :=
  ⟨by decide,
   get_slots_core_skips_failures [] ["2024-06-10T09:00:00"] "not-a-date" (by decide)⟩

/-- C4: the empty input yields empty `grouped`, `days` and `fallback` with the
constant `periods`, and `periods` is `["morning", "afternoon"]` for every
input. -/
theorem get_slots_core_empty_output :
    get_slots_core [] =
      { grouped := [], days := [], periods := ["morning", "afternoon"], fallback := [] } ∧
    ∀ l : List String, (get_slots_core l).periods = ["morning", "afternoon"] :=
  ⟨rfl, fun _ => rfl⟩

/-- C9: the grouping core is a deterministic pure function of its input — two
invocations on identical input yield structurally identical outputs, component
by component. -/
theorem get_slots_core_deterministic (l1 l2 : List String) (h : l1 = l2) :
    get_slots_core l1 = get_slots_core l2 ∧
    (get_slots_core l1).grouped = (get_slots_core l2).grouped ∧
    (get_slots_core l1).days = (get_slots_core l2).days ∧
    (get_slots_core l1).periods = (get_slots_core l2).periods ∧
    (get_slots_core l1).fallback = (get_slots_core l2).fallback := by
  subst h
  exact ⟨rfl, rfl, rfl, rfl, rfl⟩

/-- Witness for `get_slots_core_deterministic` on a concrete invocation. -/
theorem get_slots_core_deterministic_witness :
    get_slots_core ["2024-06-10T09:00:00"] = get_slots_core ["2024-06-10T09:00:00"] ∧
    (get_slots_core ["2024-06-10T09:00:00"]).grouped =
      (get_slots_core ["2024-06-10T09:00:00"]).grouped ∧
    (get_slots_core ["2024-06-10T09:00:00"]).days =
      (get_slots_core ["2024-06-10T09:00:00"]).days ∧
    (get_slots_core ["2024-06-10T09:00:00"]).periods =
      (get_slots_core ["2024-06-10T09:00:00"]).periods ∧
    (get_slots_core ["2024-06-10T09:00:00"]).fallback =
      (get_slots_core ["2024-06-10T09:00:00"]).fallback :=
  get_slots_core_deterministic ["2024-06-10T09:00:00"] ["2024-06-10T09:00:00"] rfl

/-- C10: `normalize_us_phone` returns `'+'` followed by the decimal digits of
the input, prepending a leading `'1'` unless the digit sequence already starts
with one; it always begins with `"+1"`, and a digit-free input yields `"+1"`. -/
theorem normalize_us_phone_spec (phone : String) :
    (normalize_us_phone phone).data.take 2 = ['+', '1'] ∧
    ((normalize_us_phone phone).data = '+' :: (pyDigits phone).data ∨
     (normalize_us_phone phone).data = '+' :: '1' :: (pyDigits phone).data) ∧
    (startsWith1 (pyDigits phone) = true →
      normalize_us_phone phone = "+" ++ pyDigits phone) ∧
    (startsWith1 (pyDigits phone) = false →
      normalize_us_phone phone = "+1" ++ pyDigits phone) ∧
    (pyDigits phone = "" → normalize_us_phone phone = "+1") := by
  by_cases h1 : startsWith1 (pyDigits phone) = true
  · have hd : (pyDigits phone).data.head? = some '1' := by
      have := h1
      unfold startsWith1 at this
      exact beq_iff_eq.mp this
    have heq : normalize_us_phone phone = "+" ++ pyDigits phone := by
      simp only [normalize_us_phone, h1, if_true]
    obtain ⟨t, ht⟩ : ∃ t, (pyDigits phone).data = '1' :: t := by
      cases hcd : (pyDigits phone).data with
      | nil => rw [hcd] at hd; exact absurd hd (by simp)
      | cons c t =>
        rw [hcd] at hd
        simp only [List.head?] at hd
        exact ⟨t, by rw [Option.some.injEq] at hd; rw [hd]⟩
    refine ⟨?_, Or.inl ?_, fun _ => heq, fun hf => absurd h1 (by rw [hf]; simp), ?_⟩
    · rw [heq, String.data_append, ht]
      rfl
    · rw [heq, String.data_append]
      rfl
    · intro he
      rw [he] at ht
      exact absurd ht (by simp [String.data])
  · have h1f : startsWith1 (pyDigits phone) = false := by
      cases hb : startsWith1 (pyDigits phone)
      · rfl
      · exact absurd hb h1
    have heq : normalize_us_phone phone = "+" ++ ("1" ++ pyDigits phone) := by
      simp only [normalize_us_phone, h1f, Bool.false_eq_true, if_false]
    have hdata : (normalize_us_phone phone).data = '+' :: '1' :: (pyDigits phone).data := by
      rw [heq, String.data_append, String.data_append]
      rfl
    refine ⟨by rw [hdata]; rfl, Or.inr hdata, fun ht => absurd ht h1, fun _ => ?_, fun he => ?_⟩
    · apply String.ext
      rw [hdata, String.data_append]
      rfl
    · apply String.ext
      rw [hdata, he]

/-- Witness for `normalize_us_phone_spec`: a formatted US number without
leading 1 gains one, and a digit-free input yields `"+1"`. -/
theorem normalize_us_phone_spec_witness :
    startsWith1 (pyDigits "(555) 123-4567") = false ∧
    normalize_us_phone "(555) 123-4567" = "+1" ++ pyDigits "(555) 123-4567" ∧
    normalize_us_phone "abc" = "+1" :=
  ⟨by decide,
   (normalize_us_phone_spec "(555) 123-4567").2.2.2.1 (by decide),
   (normalize_us_phone_spec "abc").2.2.2.2 (by decide)⟩

/-! ## Claim C7: what the parser actually accepts -/

lemma mkPyDateTime_isSome (y mo d h mi s us : Nat) (off : Option Int) :
    (mkPyDateTime y mo d h mi s us off).isSome =
      (dateRangeOK y mo d && timeRangeOK h mi s us && offsetRangeOK off) := by
  unfold mkPyDateTime
  by_cases hc : (dateRangeOK y mo d && timeRangeOK h mi s us && offsetRangeOK off) = true
  · rw [if_pos hc, hc]
    rfl
  · rw [if_neg hc]
    rw [Bool.not_eq_true] at hc
    rw [hc]
    rfl

/-- C7 counterexample: the bare date `"2024-06-10"` — no `'T'`, no time — is
not of the strict ISO-8601 date-`'T'`-time shape, yet `datetime.fromisoformat`
accepts it (as midnight), so it is kept in `fallback` and grouped under
Monday afternoon rather than rejected and dropped. -/
theorem strict_iso_claim_counterexample :
    (pyFromIsoformat "2024-06-10").isSome = true ∧
    strictISO8601 "2024-06-10" = false ∧
    (get_slots_core ["2024-06-10"]).fallback = ["2024-06-10"] ∧
    (get_slots_core ["2024-06-10"]).grouped =
      [("Monday", { morning := [], afternoon := ["2024-06-10"] })] :=
  ⟨by decide, by decide, by decide, by decide⟩

lemma pyFromIsoformat_isSome_eq_relaxed (s : String) :
    (pyFromIsoformat s).isSome = relaxedISO s := by
  unfold pyFromIsoformat relaxedISO dateValid timeValid
  cases hd : parse_isoformat_date (s.data.take 10) with
  | none => rfl
  | some v =>
    obtain ⟨y, mo, d⟩ := v
    dsimp only
    by_cases hl : s.data.length = 10
    · rw [if_pos hl, mkPyDateTime_isSome, hl]
      rw [show timeRangeOK 0 0 0 0 = true from by decide,
          show offsetRangeOK none = true from rfl]
      simp
    · rw [if_neg hl]
      have hlb : (s.data.length == 10) = false := beq_eq_false_iff_ne.mpr hl
      rw [hlb]
      cases ht : parse_isoformat_time (s.data.drop 11) with
      | none => simp
      | some w =>
        obtain ⟨h, mi, sec, us, off⟩ := w
        rw [mkPyDateTime_isSome]
        simp [Bool.and_assoc]

/-- C7 (amended): matching the strict date-`'T'`-time shape is sufficient for
acceptance but not necessary — acceptance is strictly wider than the spec's
grammar.  Every strict date-`'T'`-time string is accepted, and so is every
string of the relaxed shape: a valid bare date alone (no `'T'`, no time,
parsed as midnight and kept, not dropped), or a valid date followed by one
arbitrary separator character (not necessarily `'T'`) and a valid time, where
a 3- or 6-digit fractional part may follow the hour or minute directly, with
optional offset. -/
theorem strict_iso_not_necessary (s : String) :
    (strictISO8601 s = true → (pyFromIsoformat s).isSome = true) ∧
    (relaxedISO s = true → (pyFromIsoformat s).isSome = true) := by
  have main := pyFromIsoformat_isSome_eq_relaxed s
  constructor
  · intro hstrict
    unfold strictISO8601 at hstrict
    rw [Bool.and_eq_true, Bool.and_eq_true] at hstrict
    obtain ⟨⟨hdate, hsep⟩, htime⟩ := hstrict
    have hget : s.data.get? 10 = some 'T' := beq_iff_eq.mp hsep
    have hlen : 10 < s.data.length := by
      by_contra hn
      rw [List.get?_eq_none.mpr (Nat.le_of_not_lt hn)] at hget
      exact Option.noConfusion hget
    have hlb : (s.data.length == 10) = false :=
      beq_eq_false_iff_ne.mpr (Nat.ne_of_gt hlen)
    rw [main]
    unfold relaxedISO
    rw [hdate, hlb, htime]
    rfl
  · intro hrel
    rw [main, hrel]

/-- Witness for `strict_iso_not_necessary`: a strict date-`'T'`-time string is
accepted, and a fraction-after-minute string with a space separator — relaxed
but not strict — is accepted too and kept in `fallback`. -/
theorem strict_iso_not_necessary_witness :
    strictISO8601 "2024-06-10T09:00:00" = true ∧
    (pyFromIsoformat "2024-06-10T09:00:00").isSome = true ∧
    strictISO8601 "2024-06-10 09:30.500" = false ∧
    relaxedISO "2024-06-10 09:30.500" = true ∧
    (pyFromIsoformat "2024-06-10 09:30.500").isSome = true ∧
    (get_slots_core ["2024-06-10 09:30.500"]).fallback = ["2024-06-10 09:30.500"] :=
  ⟨by decide, (strict_iso_not_necessary "2024-06-10T09:00:00").1 (by decide),
   by decide, by decide,
   (strict_iso_not_necessary "2024-06-10 09:30.500").2 (by decide),
   by decide⟩

/-! ## The closed form of the grouping loop -/

lemma slotMatches_none {x : String} (hx : pyFromIsoformat x = none) (d p : String) :
    slotMatches d p x = false := by
  unfold slotMatches
  rw [hx]

lemma slotMatches_some {x : String} {dt : PyDateTime} (hx : pyFromIsoformat x = some dt)
    (d p : String) :
    slotMatches d p x = (weekdayName dt == d && classify_slot dt == p) := by
  unfold slotMatches
  rw [hx]

lemma bucketOf_concat_true {x d p : String} (h : slotMatches d p x = true)
    (l : List String) : bucketOf (l ++ [x]) d p = bucketOf l d p ++ [x] := by
  unfold bucketOf
  rw [List.filter_append]
  simp [List.filter_cons, h]

lemma bucketOf_concat_false {x d p : String} (h : slotMatches d p x = false)
    (l : List String) : bucketOf (l ++ [x]) d p = bucketOf l d p := by
  unfold bucketOf
  rw [List.filter_append]
  simp [List.filter_cons, h]

lemma validWds_concat_none {x : String} (hx : pyFromIsoformat x = none)
    (l : List String) : validWds (l ++ [x]) = validWds l := by
  unfold validWds
  rw [List.filterMap_append]
  simp [hx]

lemma validWds_concat_some {x : String} {dt : PyDateTime}
    (hx : pyFromIsoformat x = some dt) (l : List String) :
    validWds (l ++ [x]) = validWds l ++ [weekdayName dt] := by
  unfold validWds
  rw [List.filterMap_append]
  simp [hx]

lemma firstSeen_concat (m : List String) (a : String) :
    firstSeen (m ++ [a]) =
      if a ∈ firstSeen m then firstSeen m else firstSeen m ++ [a] := by
  unfold firstSeen
  rw [List.foldl_append]
  rfl

lemma mem_foldl_firstSeen (m : List String) (acc : List String) (a : String) :
    (a ∈ m.foldl (fun acc d => if d ∈ acc then acc else acc ++ [d]) acc) ↔
      a ∈ acc ∨ a ∈ m := by
  induction m generalizing acc with
  | nil => simp
  | cons x t ih =>
    rw [List.foldl_cons]
    by_cases hx : x ∈ acc
    · rw [if_pos hx, ih]
      constructor
      · rintro (h | h)
        · exact Or.inl h
        · exact Or.inr (List.mem_cons_of_mem _ h)
      · rintro (h | h)
        · exact Or.inl h
        · rcases List.mem_cons.mp h with rfl | h2
          · exact Or.inl hx
          · exact Or.inr h2
    · rw [if_neg hx, ih]
      rw [List.mem_append, List.mem_singleton, List.mem_cons]
      tauto

lemma mem_firstSeen (m : List String) (a : String) : a ∈ firstSeen m ↔ a ∈ m := by
  unfold firstSeen
  rw [mem_foldl_firstSeen]
  simp

lemma nodup_firstSeen (m : List String) : (firstSeen m).Nodup := by
  induction m using List.reverseRecOn with
  | nil => exact List.nodup_nil
  | append_singleton t a ih =>
    rw [firstSeen_concat]
    by_cases ha : a ∈ firstSeen t
    · rw [if_pos ha]
      exact ih
    · rw [if_neg ha]
      rw [List.nodup_append]
      refine ⟨ih, List.nodup_singleton a, fun b hb hb2 => ?_⟩
      rw [List.mem_singleton] at hb2
      subst hb2
      exact ha hb

lemma bucketOf_eq_nil_of_not_mem {d : String} (l : List String) (p : String)
    (hd : d ∉ validWds l) : bucketOf l d p = [] := by
  unfold bucketOf
  rw [List.filter_eq_nil_iff]
  intro s hs hms
  apply hd
  unfold slotMatches at hms
  cases hx : pyFromIsoformat s with
  | none =>
    rw [hx] at hms
    exact absurd hms (by simp)
  | some dt =>
    rw [hx] at hms
    rw [Bool.and_eq_true] at hms
    have hwd : weekdayName dt = d := beq_iff_eq.mp hms.1
    unfold validWds
    refine List.mem_filterMap.mpr ⟨s, hs, ?_⟩
    rw [hx]
    exact congrArg some hwd

lemma appendToBucket_morning (b : Buckets) (s : String) :
    appendToBucket b "morning" s = ⟨b.morning ++ [s], b.afternoon⟩ := by
  unfold appendToBucket
  rw [if_pos rfl]

lemma appendToBucket_afternoon (b : Buckets) (s : String) :
    appendToBucket b "afternoon" s = ⟨b.morning, b.afternoon ++ [s]⟩ := by
  unfold appendToBucket
  rw [if_neg (by decide : ¬(("afternoon" : String) = "morning"))]

lemma buckets_concat_self {x : String} {dt : PyDateTime}
    (hx : pyFromIsoformat x = some dt) (t : List String) :
    (⟨bucketOf (t ++ [x]) (weekdayName dt) "morning",
      bucketOf (t ++ [x]) (weekdayName dt) "afternoon"⟩ : Buckets) =
      appendToBucket ⟨bucketOf t (weekdayName dt) "morning",
        bucketOf t (weekdayName dt) "afternoon"⟩ (classify_slot dt) x := by
  rcases classify_slot_cases dt with hc | hc
  · rw [hc, appendToBucket_morning]
    have hm : slotMatches (weekdayName dt) "morning" x = true := by
      rw [slotMatches_some hx, hc]
      simp
    have ha : slotMatches (weekdayName dt) "afternoon" x = false := by
      rw [slotMatches_some hx, hc]
      rw [show (("morning" : String) == "afternoon") = false from by decide]
      simp
    rw [bucketOf_concat_true hm, bucketOf_concat_false ha]
  · rw [hc, appendToBucket_afternoon]
    have hm : slotMatches (weekdayName dt) "morning" x = false := by
      rw [slotMatches_some hx, hc]
      rw [show (("afternoon" : String) == "morning") = false from by decide]
      simp
    have ha : slotMatches (weekdayName dt) "afternoon" x = true := by
      rw [slotMatches_some hx, hc]
      simp
    rw [bucketOf_concat_false hm, bucketOf_concat_true ha]

lemma buckets_concat_other {x : String} {dt : PyDateTime}
    (hx : pyFromIsoformat x = some dt) (t : List String) {d : String}
    (hd : d ≠ weekdayName dt) (q : String) :
    bucketOf (t ++ [x]) d q = bucketOf t d q := by
  apply bucketOf_concat_false
  rw [slotMatches_some hx]
  rw [beq_eq_false_iff_ne.mpr (fun he => hd he.symm)]
  simp

lemma any_key_expectedGrouped (t : List String) (w : String) :
    ((expectedGrouped t).any (fun e => e.1 == w)) = true ↔
      w ∈ firstSeen (validWds t) := by
  unfold expectedGrouped
  rw [List.any_eq_true]
  constructor
  · rintro ⟨e, he, hew⟩
    obtain ⟨d, hd, rfl⟩ := List.mem_map.mp he
    have hdw : d = w := beq_iff_eq.mp hew
    subst hdw
    exact hd
  · intro hw
    exact ⟨(w, ⟨bucketOf t w "morning", bucketOf t w "afternoon"⟩),
      List.mem_map_of_mem _ hw, beq_self_eq_true w⟩

lemma expectedGrouped_concat_none {x : String} (hx : pyFromIsoformat x = none)
    (t : List String) : expectedGrouped (t ++ [x]) = expectedGrouped t := by
  unfold expectedGrouped
  rw [validWds_concat_none hx]
  apply List.map_congr_left
  intro d _
  rw [bucketOf_concat_false (slotMatches_none hx d "morning"),
      bucketOf_concat_false (slotMatches_none hx d "afternoon")]

lemma insertSlot_expectedGrouped {x : String} {dt : PyDateTime}
    (hx : pyFromIsoformat x = some dt) (t : List String) :
    insertSlot (expectedGrouped t) (weekdayName dt) (classify_slot dt) x =
      expectedGrouped (t ++ [x]) := by
  by_cases hmem : weekdayName dt ∈ firstSeen (validWds t)
  · unfold insertSlot
    rw [if_pos ((any_key_expectedGrouped t _).mpr hmem)]
    conv_rhs => unfold expectedGrouped
    rw [validWds_concat_some hx, firstSeen_concat, if_pos hmem]
    conv_lhs => unfold expectedGrouped
    rw [List.map_map]
    apply List.map_congr_left
    intro d hd
    dsimp only [Function.comp]
    by_cases hdw : d = weekdayName dt
    · subst hdw
      rw [beq_self_eq_true, if_pos rfl]
      rw [buckets_concat_self hx t]
    · rw [beq_eq_false_iff_ne.mpr hdw]
      rw [if_neg (by simp)]
      rw [buckets_concat_other hx t hdw "morning", buckets_concat_other hx t hdw "afternoon"]
  · unfold insertSlot
    have hanyf : ((expectedGrouped t).any (fun e => e.1 == weekdayName dt)) = false := by
      cases hb : (expectedGrouped t).any (fun e => e.1 == weekdayName dt)
      · rfl
      · exact absurd ((any_key_expectedGrouped t _).mp hb) hmem
    rw [hanyf, if_neg (by simp), List.map_append]
    conv_rhs => unfold expectedGrouped
    rw [validWds_concat_some hx, firstSeen_concat, if_neg hmem, List.map_append]
    congr 1
    · conv_lhs => unfold expectedGrouped
      rw [List.map_map]
      apply List.map_congr_left
      intro d hd
      have hdw : d ≠ weekdayName dt := fun he => hmem (he ▸ hd)
      dsimp only [Function.comp]
      rw [beq_eq_false_iff_ne.mpr hdw]
      rw [if_neg (by simp)]
      rw [buckets_concat_other hx t hdw "morning", buckets_concat_other hx t hdw "afternoon"]
    · have hnil1 : bucketOf t (weekdayName dt) "morning" = [] :=
        bucketOf_eq_nil_of_not_mem t "morning" (fun h => hmem ((mem_firstSeen _ _).mpr h))
      have hnil2 : bucketOf t (weekdayName dt) "afternoon" = [] :=
        bucketOf_eq_nil_of_not_mem t "afternoon" (fun h => hmem ((mem_firstSeen _ _).mpr h))
      rw [List.map_singleton, List.map_singleton]
      rw [show (((weekdayName dt, emptyBuckets) : String × Buckets).1 == weekdayName dt) = true
        from beq_self_eq_true _]
      rw [if_pos rfl]
      have := buckets_concat_self hx t
      rw [hnil1, hnil2] at this
      rw [this]
      rfl

lemma foldl_slotStep_fst (l : List String) :
    (l.foldl slotStep ([], [])).1 = expectedGrouped l := by
  induction l using List.reverseRecOn with
  | nil => rfl
  | append_singleton t x ih =>
    rw [List.foldl_append, List.foldl_cons, List.foldl_nil]
    cases hx : pyFromIsoformat x with
    | none =>
      rw [slotStep_none hx, ih, expectedGrouped_concat_none hx]
    | some dt =>
      rw [slotStep_some hx]
      dsimp only
      rw [ih]
      exact insertSlot_expectedGrouped hx t

lemma foldl_slotStep_snd (l : List String) (g : List (String × Buckets))
    (f : List String) :
    (l.foldl slotStep (g, f)).2 = f ++ l.filter (fun s => (pyFromIsoformat s).isSome) := by
  induction l generalizing g f with
  | nil => simp
  | cons x t ih =>
    rw [List.foldl_cons, List.filter_cons]
    cases hx : pyFromIsoformat x with
    | none =>
      rw [slotStep_none hx]
      rw [if_neg (by simp)]
      exact ih g f
    | some dt =>
      rw [slotStep_some hx]
      rw [if_pos (show (some dt).isSome = true from rfl)]
      rw [ih]
      rw [List.append_assoc]
      rfl

lemma get_slots_grouped_eq (l : List String) :
    (get_slots_core l).grouped = expectedGrouped l :=
  foldl_slotStep_fst l

lemma get_slots_fallback_eq (l : List String) :
    (get_slots_core l).fallback = l.filter (fun s => (pyFromIsoformat s).isSome) := by
  have h := foldl_slotStep_snd l [] []
  rw [List.nil_append] at h
  exact h

lemma mem_grouped_buckets {l : List String} {d : String} {b : Buckets}
    (hdb : (d, b) ∈ (get_slots_core l).grouped) :
    b.morning = bucketOf l d "morning" ∧ b.afternoon = bucketOf l d "afternoon" := by
  rw [get_slots_grouped_eq] at hdb
  unfold expectedGrouped at hdb
  obtain ⟨d2, _, heq⟩ := List.mem_map.mp hdb
  rw [Prod.mk.injEq] at heq
  obtain ⟨hd2, hb⟩ := heq
  subst hd2
  exact ⟨by rw [← hb], by rw [← hb]⟩

/-- C5: order preservation.  Every bucket of `grouped` is exactly the filter
of the input to the valid slots of that weekday and period — a subsequence of
the input, so for two valid slots at positions `i < j` landing in the same
bucket the earlier one precedes the later one there — and `fallback` is
exactly the filter of the input to the successfully parsed slots, preserving
original input order. -/
theorem buckets_and_fallback_preserve_order (l : List String) :
    (∀ d b, (d, b) ∈ (get_slots_core l).grouped →
      b.morning = bucketOf l d "morning" ∧ b.afternoon = bucketOf l d "afternoon") ∧
    (get_slots_core l).fallback = l.filter (fun s => (pyFromIsoformat s).isSome) :=
  ⟨fun _ _ hdb => mem_grouped_buckets hdb, get_slots_fallback_eq l⟩

/-- Witness for `buckets_and_fallback_preserve_order`: two Monday slots, the
earlier one in `morning`, the later in `afternoon`, as the filters predict. -/
theorem buckets_and_fallback_preserve_order_witness :
    (⟨["2024-06-10T09:00:00"], ["2024-06-10T14:00:00"]⟩ : Buckets).morning =
      bucketOf ["2024-06-10T09:00:00", "2024-06-10T14:00:00"] "Monday" "morning" ∧
    (⟨["2024-06-10T09:00:00"], ["2024-06-10T14:00:00"]⟩ : Buckets).afternoon =
      bucketOf ["2024-06-10T09:00:00", "2024-06-10T14:00:00"] "Monday" "afternoon" :=
  (buckets_and_fallback_preserve_order
      ["2024-06-10T09:00:00", "2024-06-10T14:00:00"]).1
    "Monday" ⟨["2024-06-10T09:00:00"], ["2024-06-10T14:00:00"]⟩ (by decide)

/-- C6: `days` lists the weekday keys in first-insertion order — the order of
the first position in the input at which a valid slot of that weekday occurs —
and on the spec's example it is `["Tuesday", "Monday"]`, not alphabetical and
not calendar order. -/
theorem days_first_insertion_order (l : List String) :
    (get_slots_core l).days = firstSeen (validWds l) ∧
    (get_slots_core ["2024-06-11T14:00:00", "2024-06-10T09:00:00"]).days =
      ["Tuesday", "Monday"] := by
  constructor
  · show (l.foldl slotStep ([], [])).1.map Prod.fst = _
    rw [foldl_slotStep_fst]
    unfold expectedGrouped
    rw [List.map_map]
    rw [show (Prod.fst ∘ fun d =>
      ((d, ⟨bucketOf l d "morning", bucketOf l d "afternoon"⟩) : String × Buckets)) =
        id from rfl]
    exact List.map_id _
  · decide

/-- C8: a weekday key is present in `grouped` exactly when some valid slot of
that weekday occurred in the input, and every string stored in a bucket is one
of the raw input strings (appended as-is, not reformatted). -/
theorem weekday_keys_iff_valid_slot (l : List String) (d : String) :
    ((∃ b, (d, b) ∈ (get_slots_core l).grouped) ↔
      ∃ s ∈ l, ∃ dt, pyFromIsoformat s = some dt ∧ weekdayName dt = d) ∧
    (∀ b, (d, b) ∈ (get_slots_core l).grouped →
      ∀ s, (s ∈ b.morning ∨ s ∈ b.afternoon) → s ∈ l) := by
  constructor
  · rw [get_slots_grouped_eq]
    unfold expectedGrouped
    constructor
    · rintro ⟨b, hb⟩
      obtain ⟨d2, hd2, heq⟩ := List.mem_map.mp hb
      rw [Prod.mk.injEq] at heq
      obtain ⟨hd2d, _⟩ := heq
      subst hd2d
      have hmem : d2 ∈ validWds l := (mem_firstSeen _ _).mp hd2
      obtain ⟨s, hs, hfs⟩ := List.mem_filterMap.mp hmem
      obtain ⟨dt, hdt, hwd⟩ := Option.map_eq_some'.mp hfs
      exact ⟨s, hs, dt, hdt, hwd⟩
    · rintro ⟨s, hs, dt, hdt, hwd⟩
      have hmem : d ∈ validWds l := by
        refine List.mem_filterMap.mpr ⟨s, hs, ?_⟩
        rw [hdt]
        exact congrArg some hwd
      exact ⟨⟨bucketOf l d "morning", bucketOf l d "afternoon"⟩,
        List.mem_map_of_mem _ ((mem_firstSeen _ _).mpr hmem)⟩
  · intro b hdb s hsb
    obtain ⟨hm, ha⟩ := mem_grouped_buckets hdb
    rcases hsb with hsm | hsa
    · rw [hm] at hsm
      exact List.mem_of_mem_filter hsm
    · rw [ha] at hsa
      exact List.mem_of_mem_filter hsa

/-- Witness for `weekday_keys_iff_valid_slot`: a Monday slot in the input
produces a `"Monday"` key. -/
theorem weekday_keys_iff_valid_slot_witness :
    ∃ b, ("Monday", b) ∈ (get_slots_core ["2024-06-10T09:00:00"]).grouped :=
  (weekday_keys_iff_valid_slot ["2024-06-10T09:00:00"] "Monday").1.mpr
    ⟨"2024-06-10T09:00:00", by decide, ⟨2024, 6, 10, 9, 0, 0, 0, none⟩,
      by decide, by decide⟩

/-! ## Claim C2: counting and membership invariants -/

lemma sum_map_succ_at (w : String) (f g : String → Nat) :
    ∀ m : List String, m.Nodup → w ∈ m →
      (∀ d ∈ m, d ≠ w → g d = f d) → g w = f w + 1 →
      (m.map g).sum = (m.map f).sum + 1 := by
  intro m
  induction m with
  | nil =>
    intro _ hw
    cases hw
  | cons a t ih =>
    intro hnd hw hne heq
    rw [List.map_cons, List.map_cons, List.sum_cons, List.sum_cons]
    rcases List.mem_cons.mp hw with rfl | hwt
    · have hta : ∀ d ∈ t, g d = f d := by
        intro d hd
        apply hne d (List.mem_cons_of_mem _ hd)
        intro hdw
        subst hdw
        exact (List.nodup_cons.mp hnd).1 hd
      rw [heq, List.map_congr_left hta]
      omega
    · have ha2 : a ≠ w := by
        intro haw
        subst haw
        exact (List.nodup_cons.mp hnd).1 hwt
      rw [hne a (List.mem_cons_self a t) ha2,
          ih (List.nodup_cons.mp hnd).2 hwt
            (fun d hd hdw => hne d (List.mem_cons_of_mem _ hd) hdw) heq]
      omega

lemma bucket_lengths_concat_self {x : String} {dt : PyDateTime}
    (hx : pyFromIsoformat x = some dt) (t : List String) :
    (bucketOf (t ++ [x]) (weekdayName dt) "morning").length +
      (bucketOf (t ++ [x]) (weekdayName dt) "afternoon").length =
    ((bucketOf t (weekdayName dt) "morning").length +
      (bucketOf t (weekdayName dt) "afternoon").length) + 1 := by
  have h := buckets_concat_self hx t
  rcases classify_slot_cases dt with hc | hc
  · rw [hc, appendToBucket_morning] at h
    have hm := congrArg Buckets.morning h
    have ha := congrArg Buckets.afternoon h
    dsimp only at hm ha
    rw [hm, ha, List.length_append]
    simp
    omega
  · rw [hc, appendToBucket_afternoon] at h
    have hm := congrArg Buckets.morning h
    have ha := congrArg Buckets.afternoon h
    dsimp only at hm ha
    rw [hm, ha, List.length_append]
    simp
    omega

lemma sumBuckets_expectedGrouped_eq_map (m : List String) :
    sumBuckets (expectedGrouped m) =
      ((firstSeen (validWds m)).map
        (fun d => (bucketOf m d "morning").length +
          (bucketOf m d "afternoon").length)).sum := by
  unfold sumBuckets expectedGrouped
  rw [List.map_map]
  rfl

lemma sumBuckets_expectedGrouped (l : List String) :
    sumBuckets (expectedGrouped l) =
      (l.filter (fun s => (pyFromIsoformat s).isSome)).length := by
  induction l using List.reverseRecOn with
  | nil => rfl
  | append_singleton t x ih =>
    rw [List.filter_append]
    cases hx : pyFromIsoformat x with
    | none =>
      rw [expectedGrouped_concat_none hx, ih]
      rw [show List.filter (fun s => (pyFromIsoformat s).isSome) [x] = [] from by
        simp [List.filter_cons, hx]]
      rw [List.append_nil]
    | some dt =>
      rw [show List.filter (fun s => (pyFromIsoformat s).isSome) [x] = [x] from by
        simp [List.filter_cons, hx]]
      rw [List.length_append, ← ih]
      rw [sumBuckets_expectedGrouped_eq_map, sumBuckets_expectedGrouped_eq_map]
      rw [validWds_concat_some hx, firstSeen_concat]
      by_cases hmem : weekdayName dt ∈ firstSeen (validWds t)
      · rw [if_pos hmem]
        rw [sum_map_succ_at (weekdayName dt)
          (fun d => (bucketOf t d "morning").length + (bucketOf t d "afternoon").length)
          (fun d => (bucketOf (t ++ [x]) d "morning").length +
            (bucketOf (t ++ [x]) d "afternoon").length)
          (firstSeen (validWds t)) (nodup_firstSeen _) hmem
          (fun d _ hdw => by
            dsimp only
            rw [buckets_concat_other hx t hdw "morning",
                buckets_concat_other hx t hdw "afternoon"])
          (bucket_lengths_concat_self hx t)]
        rfl
      · rw [if_neg hmem]
        rw [List.map_append, List.sum_append]
        have hfs : ∀ d ∈ firstSeen (validWds t),
            (bucketOf (t ++ [x]) d "morning").length +
              (bucketOf (t ++ [x]) d "afternoon").length =
            (bucketOf t d "morning").length + (bucketOf t d "afternoon").length := by
          intro d hd
          have hdw : d ≠ weekdayName dt := fun he => hmem (he ▸ hd)
          rw [buckets_concat_other hx t hdw "morning",
              buckets_concat_other hx t hdw "afternoon"]
        rw [List.map_congr_left hfs]
        have hnil1 : bucketOf t (weekdayName dt) "morning" = [] :=
          bucketOf_eq_nil_of_not_mem t "morning"
            (fun h => hmem ((mem_firstSeen _ _).mpr h))
        have hnil2 : bucketOf t (weekdayName dt) "afternoon" = [] :=
          bucketOf_eq_nil_of_not_mem t "afternoon"
            (fun h => hmem ((mem_firstSeen _ _).mpr h))
        have hw1 := bucket_lengths_concat_self hx t
        rw [hnil1, hnil2] at hw1
        rw [List.map_singleton, List.sum_singleton, hw1]
        simp

lemma memGrouped_iff_filter (l : List String) (s : String) :
    memGrouped (expectedGrouped l) s ↔
      s ∈ l.filter (fun q => (pyFromIsoformat q).isSome) := by
  unfold memGrouped
  constructor
  · rintro ⟨e, he, hm⟩
    obtain ⟨d, _, rfl⟩ := List.mem_map.mp he
    dsimp only at hm
    have hand : ∀ q, s ∈ bucketOf l d q →
        s ∈ l.filter (fun r => (pyFromIsoformat r).isSome) := by
      intro q hq
      have hsl := List.mem_of_mem_filter hq
      have hms := List.of_mem_filter hq
      refine List.mem_filter.mpr ⟨hsl, ?_⟩
      unfold slotMatches at hms
      cases hp : pyFromIsoformat s with
      | none =>
        rw [hp] at hms
        exact absurd hms (by simp)
      | some dt2 => rfl
    rcases hm with hm | hm
    · exact hand "morning" hm
    · exact hand "afternoon" hm
  · intro hsf
    have hsl := List.mem_of_mem_filter hsf
    have hsome := List.of_mem_filter hsf
    obtain ⟨dt, hdt⟩ := Option.isSome_iff_exists.mp hsome
    refine ⟨(weekdayName dt, ⟨bucketOf l (weekdayName dt) "morning",
      bucketOf l (weekdayName dt) "afternoon"⟩), ?_, ?_⟩
    · apply List.mem_map_of_mem
      apply (mem_firstSeen _ _).mpr
      refine List.mem_filterMap.mpr ⟨s, hsl, ?_⟩
      rw [hdt]
      rfl
    · dsimp only
      rcases classify_slot_cases dt with hc | hc
      · left
        refine List.mem_filter.mpr ⟨hsl, ?_⟩
        rw [slotMatches_some hdt, hc]
        simp
      · right
        refine List.mem_filter.mpr ⟨hsl, ?_⟩
        rw [slotMatches_some hdt, hc]
        simp

/-- C2: the length of `fallback` equals the total number of slots stored
across all weekday/period buckets of `grouped`, and a string occurs in some
bucket of `grouped` exactly when it occurs in `fallback`. -/
theorem fallback_matches_grouped (l : List String) :
    (get_slots_core l).fallback.length = sumBuckets (get_slots_core l).grouped ∧
    ∀ s, memGrouped (get_slots_core l).grouped s ↔ s ∈ (get_slots_core l).fallback := by
  rw [get_slots_fallback_eq, get_slots_grouped_eq]
  exact ⟨(sumBuckets_expectedGrouped l).symm, fun s => memGrouped_iff_filter l s⟩
